import Mathlib

set_option maxHeartbeats 1000000

/-!
Verification of `src/ReadContentAPI.py` (a Flask service extracting text
from documents).  The Python source is shallowly embedded: pure string
processing (`clean_text`, `is_image_file`, the xlsx cell loop, the
extension dispatch of `read_file`) is translated to executable Lean
functions on `List Char` / `String`; the external collaborators
(filesystem, fitz, pdf2image, pytesseract, python-docx, openpyxl,
python-pptx, COM automation) are oracle fields of an `Env` record, and
the temporary files created for OCR are threaded as an explicit
`List String` state.
-/

/-- Characters removed by Python `str.strip()` (the `str.isspace` set). -/
def isPySpace (c : Char) : Bool :=
  c == ' ' || c == '\t' || c == '\n' || c == '\r' || c == '\x0b' || c == '\x0c' ||
  c == '\x1c' || c == '\x1d' || c == '\x1e' || c == '\x1f' || c == '\x85' || c == '\xa0' ||
  c.toNat == 0x1680 || (0x2000 ≤ c.toNat && c.toNat ≤ 0x200a) || c.toNat == 0x2028 ||
  c.toNat == 0x2029 || c.toNat == 0x202f || c.toNat == 0x205f || c.toNat == 0x3000

/-- Right side of Python `str.strip()`: drop trailing whitespace. -/
def rstripL : List Char → List Char
  | [] => []
  | c :: rest =>
    if (rstripL rest).isEmpty && isPySpace c then [] else c :: rstripL rest

/-- Python `str.strip()` on a list of characters. -/
def stripL (l : List Char) : List Char := rstripL (l.dropWhile isPySpace)

/-- The match condition of `re.sub(r'(?<!\n)\n(?!\n)', ' ', ·)` at a
character `c` whose predecessor-is-newline flag is `b` and whose
remaining characters are `rest`. -/
def isoCond (b : Bool) (c : Char) (rest : List Char) : Bool :=
  c == '\n' && !b && !(rest.head? == some '\n')

/-- Translation of `re.sub(r'(?<!\n)\n(?!\n)', ' ', ·)` to a list of characters.
`prevNl` records whether the previous character of the *original*
string was a newline (regex lookbehind inspects the original string,
and matching restarts after each single-character match). -/
def subNl (prevNl : Bool) : List Char → List Char
  | [] => []
  | c :: rest => (if isoCond prevNl c rest then ' ' else c) :: subNl (c == '\n') rest

/-- Core of `clean_text` from the source:
`return re.sub(r'(?<!\n)\n(?!\n)', ' ', raw_text.strip())`. -/
def cleanTextL (l : List Char) : List Char := subNl false (stripL l)

/-- The function `clean_text` on `String`. -/
def clean_text (s : String) : String := ⟨cleanTextL s.data⟩

/-- Modelled from the spec's wording of the normalizer contract:
first replace every isolated newline by a space, then trim. -/
def normalizeSpecL (l : List Char) : List Char := stripL (subNl false l)

/-- The spec-order normalizer on `String`. -/
def normalize_spec (s : String) : String := ⟨normalizeSpecL s.data⟩

/-- Every newline of the list is immediately adjacent to another
newline; `prevNl` says whether the previous character was a newline. -/
def noIsolatedNl (prevNl : Bool) : List Char → Bool
  | [] => true
  | c :: rest =>
    (if c == '\n' then prevNl || (rest.head? == some '\n') else true) &&
      noIsolatedNl (c == '\n') rest

theorem isPySpace_nl : isPySpace '\n' = true := by decide

theorem isPySpace_space : isPySpace ' ' = true := by decide

theorem beq_nl_false_of_not_space {c : Char} (hc : isPySpace c = false) :
    (c == '\n') = false := by
  cases h : c == '\n'
  · rfl
  · rw [eq_of_beq h, isPySpace_nl] at hc
    exact absurd hc (by simp)

theorem isoCond_not_nl {c : Char} (hc : (c == '\n') = false) (b : Bool) (rest : List Char) :
    isoCond b c rest = false := by
  simp [isoCond, hc]

theorem subNl_cons_not_nl {c : Char} (hc : (c == '\n') = false) (b : Bool) (rest : List Char) :
    subNl b (c :: rest) = c :: subNl false rest := by
  rw [subNl, isoCond_not_nl hc, hc]
  simp

theorem subNl_nil_iff (b : Bool) (l : List Char) : subNl b l = [] ↔ l = [] := by
  cases l <;> simp [subNl]

theorem subNl_isEmpty (b : Bool) (l : List Char) : (subNl b l).isEmpty = l.isEmpty := by
  cases l <;> simp [subNl]

theorem subNl_flag (b₁ b₂ : Bool) (l : List Char) (h : l.head? ≠ some '\n') :
    subNl b₁ l = subNl b₂ l := by
  cases l with
  | nil => rfl
  | cons c rest =>
    have hc : (c == '\n') = false := by
      simp only [List.head?_cons, ne_eq, Option.some.injEq] at h
      simp [h]
    rw [subNl_cons_not_nl hc, subNl_cons_not_nl hc]

theorem head?_subNl_not_nl (b : Bool) (l : List Char) (h : l.head? ≠ some '\n') :
    (subNl b l).head? = l.head? := by
  cases l with
  | nil => rfl
  | cons c rest =>
    have hc : (c == '\n') = false := by
      simp only [List.head?_cons, ne_eq, Option.some.injEq] at h
      simp [h]
    rw [subNl_cons_not_nl hc]
    simp

theorem head?_subNl_nl_of_nl (l : List Char) (h : l.head? = some '\n') :
    (subNl true l).head? = some '\n' := by
  cases l with
  | nil => simp at h
  | cons c rest =>
    simp only [List.head?_cons, Option.some.injEq] at h
    subst h
    simp [subNl, isoCond]

theorem head?_subNl_nl (b : Bool) (l : List Char) (h : (subNl b l).head? = some '\n') :
    l.head? = some '\n' := by
  cases l with
  | nil => simp [subNl] at h
  | cons c rest =>
    by_cases hc : c = '\n'
    · simp [hc]
    · have hbeq : (c == '\n') = false := by simp [hc]
      rw [subNl_cons_not_nl hbeq] at h
      simp only [List.head?_cons, Option.some.injEq] at h
      exact absurd h hc

theorem subNl_space_char (b : Bool) (c : Char) (rest : List Char) (h : isPySpace c = true) :
    isPySpace (if isoCond b c rest then ' ' else c) = true := by
  split <;> simp [isPySpace_space, h]

theorem dropWhile_head_not {p : Char → Bool} :
    ∀ (l : List Char) (a : Char), (l.dropWhile p).head? = some a → p a = false
  | [], a => by simp [List.dropWhile]
  | c :: rest, a => by
    by_cases hc : p c = true
    · simp only [List.dropWhile, hc]
      exact dropWhile_head_not rest a
    · simp only [List.dropWhile, hc]
      intro h
      simp only [List.head?_cons, Option.some.injEq] at h
      subst h
      simp at hc
      simp [hc]

theorem dropWhile_eq_self_of_head {p : Char → Bool} (l : List Char)
    (h : ∀ a, l.head? = some a → p a = false) : l.dropWhile p = l := by
  cases l with
  | nil => rfl
  | cons c rest => simp [List.dropWhile, h c rfl]

theorem head?_dropWhile_ne_nl (l : List Char) :
    (l.dropWhile isPySpace).head? ≠ some '\n' := by
  intro h
  have := dropWhile_head_not (p := isPySpace) l '\n' h
  rw [isPySpace_nl] at this
  exact Bool.true_eq_false.mp this

theorem dropWhile_subNl (l : List Char) (b : Bool) :
    (subNl b l).dropWhile isPySpace = subNl b (l.dropWhile isPySpace) := by
  induction l generalizing b with
  | nil => rfl
  | cons c rest ih =>
    by_cases hc : isPySpace c = true
    · have hcnl : isPySpace (if isoCond b c rest then ' ' else c) = true :=
        subNl_space_char b c rest hc
      simp only [subNl, List.dropWhile, hcnl, hc]
      rw [ih (c == '\n')]
      exact subNl_flag _ _ _ (head?_dropWhile_ne_nl rest)
    · have hcne : isPySpace c = false := Bool.eq_false_iff.mpr hc
      have hbeq : (c == '\n') = false := beq_nl_false_of_not_space hcne
      have hdrop : (c :: rest).dropWhile isPySpace = c :: rest := by
        simp [List.dropWhile, hc]
      rw [hdrop, subNl_cons_not_nl hbeq]
      have hdrop2 : (c :: subNl false rest).dropWhile isPySpace = c :: subNl false rest := by
        simp [List.dropWhile, hc]
      exact hdrop2

theorem head?_rstripL (l : List Char) (h : rstripL l ≠ []) : (rstripL l).head? = l.head? := by
  cases l with
  | nil => simp [rstripL] at h
  | cons c rest =>
    by_cases hcnd : ((rstripL rest).isEmpty && isPySpace c) = true
    · rw [rstripL, if_pos hcnd] at h
      exact absurd rfl h
    · rw [rstripL, if_neg hcnd]
      simp

theorem rstripL_subNl (l : List Char) (b : Bool) :
    rstripL (subNl b l) = subNl b (rstripL l) := by
  induction l generalizing b with
  | nil => rfl
  | cons c rest ih =>
    simp only [subNl, rstripL, ih (c == '\n'), subNl_isEmpty]
    by_cases hre : (rstripL rest).isEmpty = true
    · have hre' : rstripL rest = [] := List.isEmpty_iff.mp hre
      by_cases hc : isPySpace c = true
      · have hcnl : isPySpace (if isoCond b c rest then ' ' else c) = true :=
          subNl_space_char b c rest hc
        simp [hre, hcnl, hc, subNl]
      · have hcne : isPySpace c = false := Bool.eq_false_iff.mpr hc
        have hbeq : (c == '\n') = false := beq_nl_false_of_not_space hcne
        have hkeep : (if isoCond b c rest then ' ' else c) = c := by
          rw [isoCond_not_nl hbeq]; rfl
        rw [hkeep]
        rw [if_neg (by rw [hre, hcne]; simp), if_neg (by rw [hre, hcne]; simp)]
        rw [hre', subNl_cons_not_nl hbeq, hbeq]
    · have hne' : rstripL rest ≠ [] := fun h => hre (by rw [h]; rfl)
      have hreF : (rstripL rest).isEmpty = false := Bool.eq_false_iff.mpr hre
      have hhead : (rstripL rest).head? = rest.head? := head?_rstripL rest hne'
      have hiso : isoCond b c (rstripL rest) = isoCond b c rest := by
        rw [isoCond, isoCond, hhead]
      have h1 : ¬(((rstripL rest).isEmpty
          && isPySpace (if isoCond b c rest then ' ' else c)) = true) := by
        rw [hreF]; simp
      have h2 : ¬(((rstripL rest).isEmpty && isPySpace c) = true) := by
        rw [hreF]; simp
      rw [if_neg h1, if_neg h2, subNl, hiso]

theorem stripL_subNl_comm (l : List Char) :
    stripL (subNl false l) = subNl false (stripL l) := by
  rw [stripL, dropWhile_subNl, rstripL_subNl, stripL]

theorem rstripL_idem (l : List Char) : rstripL (rstripL l) = rstripL l := by
  induction l with
  | nil => rfl
  | cons c rest ih =>
    by_cases hcnd : ((rstripL rest).isEmpty && isPySpace c) = true
    · rw [rstripL, if_pos hcnd]
      rfl
    · rw [rstripL, if_neg hcnd, rstripL, ih, if_neg hcnd]

theorem stripL_idem (l : List Char) : stripL (stripL l) = stripL l := by
  simp only [stripL]
  by_cases h : rstripL (l.dropWhile isPySpace) = []
  · rw [h]; rfl
  · have hh : (rstripL (l.dropWhile isPySpace)).head? = (l.dropWhile isPySpace).head? :=
      head?_rstripL _ h
    have hdw : (rstripL (l.dropWhile isPySpace)).dropWhile isPySpace
        = rstripL (l.dropWhile isPySpace) := by
      apply dropWhile_eq_self_of_head
      intro a ha
      exact dropWhile_head_not l a (hh ▸ ha)
    rw [hdw, rstripL_idem]

theorem subNl_idem (l : List Char) : ∀ b : Bool, subNl b (subNl b l) = subNl b l := by
  induction l with
  | nil => intro b; rfl
  | cons c rest ih =>
    intro b
    by_cases hc : c = '\n'
    · subst hc
      by_cases hb : b = true
      · subst hb
        have e1 : subNl true ('\n' :: rest) = '\n' :: subNl true rest := by
          simp [subNl, isoCond]
        have e2 : subNl true ('\n' :: subNl true rest)
            = '\n' :: subNl true (subNl true rest) := by
          simp [subNl, isoCond]
        rw [e1, e2, ih true]
      · have hbf : b = false := Bool.eq_false_iff.mpr hb
        subst hbf
        by_cases hn : rest.head? = some '\n'
        · have hiso : isoCond false '\n' rest = false := by
            simp [isoCond, hn]
          have e1 : subNl false ('\n' :: rest) = '\n' :: subNl true rest := by
            rw [subNl, hiso]
            simp
          have hh : (subNl true rest).head? = some '\n' := head?_subNl_nl_of_nl rest hn
          have hiso2 : isoCond false '\n' (subNl true rest) = false := by
            simp [isoCond, hh]
          have e2 : subNl false ('\n' :: subNl true rest)
              = '\n' :: subNl true (subNl true rest) := by
            rw [subNl, hiso2]
            simp
          rw [e1, e2, ih true]
        · have hiso : isoCond false '\n' rest = true := by
            simp [isoCond, hn]
          have e1 : subNl false ('\n' :: rest) = ' ' :: subNl true rest := by
            rw [subNl, hiso]
            simp
          have hsp : ((' ' : Char) == '\n') = false := by decide
          rw [e1, subNl_cons_not_nl hsp]
          have hh : (subNl true rest).head? ≠ some '\n' := fun hx => hn (head?_subNl_nl true rest hx)
          rw [subNl_flag false true _ hh, ih true]
    · have hbeq : (c == '\n') = false := by simp [hc]
      rw [subNl_cons_not_nl hbeq, subNl_cons_not_nl hbeq, ih false]

theorem subNl_eq_self_iff : ∀ (l : List Char) (b : Bool),
    subNl b l = l ↔ noIsolatedNl b l = true
  | [], b => by simp [subNl, noIsolatedNl]
  | c :: rest, b => by
    rw [subNl, noIsolatedNl, Bool.and_eq_true]
    constructor
    · intro h
      injection h with h1 h2
      refine ⟨?_, (subNl_eq_self_iff rest (c == '\n')).mp h2⟩
      by_cases hc : c = '\n'
      · subst hc
        simp only [beq_self_eq_true, if_true]
        by_cases hb : b = true
        · simp [hb]
        · have hbf : b = false := Bool.eq_false_iff.mpr hb
          by_cases hn : rest.head? = some '\n'
          · simp [hn]
          · have hiso : isoCond b '\n' rest = true := by
              simp [isoCond, hbf, hn]
            rw [if_pos hiso] at h1
            exact absurd h1 (by decide)
      · have hbeq : (c == '\n') = false := by simp [hc]
        simp [hbeq]
    · rintro ⟨h1, h2⟩
      have h2' := (subNl_eq_self_iff rest (c == '\n')).mpr h2
      by_cases hc : c = '\n'
      · subst hc
        simp only [beq_self_eq_true, if_true] at h1
        have hiso : isoCond b '\n' rest = false := by
          rcases Bool.or_eq_true_iff.mp h1 with hb | hn
          · simp [isoCond, hb]
          · simp [isoCond, hn]
        have h2t : subNl true rest = rest := by simpa using h2'
        rw [hiso]
        simp [h2t]
      · have hbeq : (c == '\n') = false := by simp [hc]
        rw [hbeq] at h2'
        rw [isoCond_not_nl hbeq]
        simp [h2', hbeq]

theorem getLast?_rstripL : ∀ (l : List Char) (c : Char),
    (rstripL l).getLast? = some c → isPySpace c = false
  | [], c => by simp [rstripL]
  | d :: rest, c => by
    by_cases hcnd : ((rstripL rest).isEmpty && isPySpace d) = true
    · rw [rstripL, if_pos hcnd]
      intro h
      simp at h
    · rw [rstripL, if_neg hcnd]
      by_cases hre : rstripL rest = []
      · rw [hre]
        intro h
        simp only [List.getLast?_singleton, Option.some.injEq] at h
        subst h
        have : (rstripL rest).isEmpty = true := by rw [hre]; rfl
        rw [this] at hcnd
        simpa using hcnd
      · obtain ⟨e, w, hw⟩ : ∃ e w, rstripL rest = e :: w := by
          cases hx : rstripL rest with
          | nil => exact absurd hx hre
          | cons e w => exact ⟨e, w, rfl⟩
        rw [hw, List.getLast?_cons_cons, ← hw]
        exact getLast?_rstripL rest c

theorem getLast?_subNl_rev : ∀ (b : Bool) (l : List Char) (c : Char),
    (subNl b l).getLast? = some c →
      l.getLast? = some c ∨ (c = ' ' ∧ l.getLast? = some '\n')
  | b, [], c => by simp [subNl]
  | b, [d], c => by
    intro h
    rw [subNl, subNl] at h
    simp only [List.getLast?_singleton, Option.some.injEq] at h
    by_cases hcnd : isoCond b d [] = true
    · rw [if_pos hcnd] at h
      right
      refine ⟨h.symm, ?_⟩
      have hd : d = '\n' := by
        rw [isoCond] at hcnd
        simp only [Bool.and_eq_true, beq_iff_eq] at hcnd
        exact hcnd.1.1
      simp [hd]
    · rw [if_neg hcnd] at h
      left
      simp [h]
  | b, d :: e :: rest, c => by
    intro h
    rw [subNl] at h
    obtain ⟨f, w, hw⟩ : ∃ f w, subNl (d == '\n') (e :: rest) = f :: w := ⟨_, _, rfl⟩
    rw [hw, List.getLast?_cons_cons, ← hw] at h
    rw [List.getLast?_cons_cons]
    exact getLast?_subNl_rev (d == '\n') (e :: rest) c h

theorem head?_stripL (l : List Char) (c : Char) (h : (stripL l).head? = some c) :
    isPySpace c = false := by
  rw [stripL] at h
  by_cases hre : rstripL (l.dropWhile isPySpace) = []
  · rw [hre] at h
    simp at h
  · rw [head?_rstripL _ hre] at h
    exact dropWhile_head_not l c h

theorem getLast?_stripL (l : List Char) (c : Char) (h : (stripL l).getLast? = some c) :
    isPySpace c = false := by
  rw [stripL] at h
  exact getLast?_rstripL _ c h

/-- C3: the Text Normalizer collapses exactly the isolated newlines to
single spaces and trims the ends; `clean_text` (which strips first,
then substitutes, as the source does) agrees with the spec's wording
(substitute first, then trim) on every string, and on the two
spec examples `clean_text "a\n\nb" = "a\n\nb"` and
`clean_text "a\nb" = "a b"`. -/
theorem clean_text_matches_spec :
    (∀ s : String, clean_text s = normalize_spec s) ∧
      clean_text "a\n\nb" = "a\n\nb" ∧ clean_text "a\nb" = "a b" := by
  refine ⟨fun s => ?_, by decide, by decide⟩
  show String.mk (cleanTextL s.data) = String.mk (normalizeSpecL s.data)
  rw [cleanTextL, normalizeSpecL, stripL_subNl_comm]

/-- C4: the Text Normalizer is idempotent:
`clean_text (clean_text s) = clean_text s` for every string. -/
theorem clean_text_idempotent (s : String) : clean_text (clean_text s) = clean_text s := by
  show String.mk (cleanTextL (cleanTextL s.data)) = String.mk (cleanTextL s.data)
  congr 1
  rw [cleanTextL, cleanTextL, stripL_subNl_comm, stripL_idem, subNl_idem]

/-- C10: the output of the Text Normalizer has no isolated newline
(every newline is adjacent to another newline) and no leading or
trailing whitespace; this holds for every input string, hence also for
the error strings the extractors route through `clean_text`. -/
theorem clean_text_postconditions (s : String) :
    noIsolatedNl false (clean_text s).data = true ∧
    (∀ c, (clean_text s).data.head? = some c → isPySpace c = false) ∧
    (∀ c, (clean_text s).data.getLast? = some c → isPySpace c = false) := by
  have hdata : (clean_text s).data = cleanTextL s.data := rfl
  refine ⟨?_, ?_, ?_⟩
  · rw [hdata]
    apply (subNl_eq_self_iff _ false).mp
    rw [cleanTextL]
    exact subNl_idem (stripL s.data) false
  · intro c h
    rw [hdata, cleanTextL] at h
    by_cases hre : stripL s.data = []
    · rw [hre] at h
      simp [subNl] at h
    · have hh : (stripL s.data).head? ≠ some '\n' := by
        intro hx
        have := head?_stripL s.data '\n' hx
        rw [isPySpace_nl] at this
        exact Bool.true_eq_false.mp this
      rw [head?_subNl_not_nl false _ hh] at h
      exact head?_stripL s.data c h
  · intro c h
    rw [hdata, cleanTextL] at h
    rcases getLast?_subNl_rev false (stripL s.data) c h with hl | ⟨hsp, hl⟩
    · exact getLast?_stripL s.data c hl
    · have := getLast?_stripL s.data '\n' hl
      rw [isPySpace_nl] at this
      exact absurd this (by simp)

/-- Witness for C10 at a concrete input. -/
theorem clean_text_postconditions_witness :
    noIsolatedNl false (clean_text "a\nb").data = true ∧ isPySpace 'a' = false :=
  ⟨(clean_text_postconditions "a\nb").1,
    (clean_text_postconditions "a\nb").2.1 'a' (by decide)⟩

/-- Translation of `is_image_file`: open the PDF and return `False` as
soon as some page's `page.get_text().strip()` is truthy (non-empty),
else `True`.  The document is modelled as the list of its pages'
extractable text. -/
def is_image_file : List String → Bool
  | [] => true
  | p :: rest => if (stripL p.data).isEmpty then is_image_file rest else false

/-- C5: the Format Classifier labels a PDF image-only exactly when
every page's extractable text is empty after trimming; with any
non-empty (trimmed) page text it is a text PDF
(`is_image_file = false`). -/
theorem is_image_file_iff (pages : List String) :
    is_image_file pages = true ↔ ∀ p ∈ pages, stripL p.data = [] := by
  induction pages with
  | nil => simp [is_image_file]
  | cons p rest ih =>
    rw [is_image_file]
    by_cases h : (stripL p.data).isEmpty = true
    · rw [if_pos h, ih]
      have hp : stripL p.data = [] := List.isEmpty_iff.mp h
      constructor
      · intro hall q hq
        rcases List.mem_cons.mp hq with rfl | hq'
        · exact hp
        · exact hall q hq'
      · intro hall q hq
        exact hall q (List.mem_cons_of_mem p hq)
    · rw [if_neg h]
      constructor
      · intro hx
        exact absurd hx (by simp)
      · intro hall
        exact absurd (hall p (List.mem_cons_self p rest)) fun hx => h (by rw [hx]; rfl)

/-- Witness for C5: a whitespace-only single-page document classifies
as image-only. -/
theorem is_image_file_iff_witness : is_image_file [" \n"] = true :=
  (is_image_file_iff [" \n"]).mpr (by
    intro p hp
    have : p = " \n" := by simpa using hp
    rw [this]
    decide)

/-- A spreadsheet cell value as `openpyxl` can deliver it; the
constructors cover the cases Python's truthiness test
`if cell.value:` distinguishes. -/
inductive CellVal where
  | vNone
  | vStr (s : String)
  | vInt (n : Int)
  | vBool (b : Bool)
deriving DecidableEq

/-- Python truthiness of a cell value (the `if cell.value:` test). -/
def CellVal.truthy : CellVal → Bool
  | .vNone => false
  | .vStr s => !(s == "")
  | .vInt n => !(n == 0)
  | .vBool b => b

/-- Python `str(cell.value)`. -/
def CellVal.pyStr : CellVal → String
  | .vNone => "None"
  | .vStr s => s
  | .vInt n => toString n
  | .vBool b => if b then "True" else "False"

/-- The cell loop of `read_xlsx`: `text = []`, then
`for sheet in workbook: for row in sheet.rows: for cell in row:
if cell.value: text.append(str(cell.value))`. -/
def xlsxCollect (sheets : List (List (List CellVal))) : List String :=
  sheets.foldl
    (fun acc sheet =>
      sheet.foldl
        (fun acc row =>
          row.foldl (fun acc c => if c.truthy then acc ++ [c.pyStr] else acc) acc)
        acc)
    []

/-- Body of `read_xlsx` given the outcome of `load_workbook` (which its
`try`/`except` turns into an error string on failure);
on success the collected cells are joined with `"\n"`. -/
def read_xlsx_core (wb : Except String (List (List (List CellVal)))) : String :=
  match wb with
  | .error e => "Error reading XLSX file: " ++ e
  | .ok sheets => String.intercalate "\n" (xlsxCollect sheets)

/-- Modelled from the claim's wording: an "empty cell" has no value or
an empty-string value. -/
def CellVal.isEmptyCell : CellVal → Bool
  | .vNone => true
  | .vStr s => s == ""
  | .vInt _ => false
  | .vBool _ => false

/-- Modelled from the claim's wording: visit cells in sheet/row/cell
order and keep the string form of exactly the non-empty cells. -/
def xlsxSpec (sheets : List (List (List CellVal))) : String :=
  String.intercalate "\n"
    ((sheets.flatten.flatten.filter (fun c => !c.isEmptyCell)).map CellVal.pyStr)

theorem foldl_filter_map {α : Type} (p : α → Bool) (f : α → String) :
    ∀ (l : List α) (acc : List String),
      l.foldl (fun acc c => if p c then acc ++ [f c] else acc) acc
        = acc ++ (l.filter p).map f
  | [], acc => by simp
  | c :: rest, acc => by
    rw [List.foldl_cons]
    by_cases h : p c = true
    · rw [if_pos h, foldl_filter_map p f rest (acc ++ [f c])]
      simp [List.filter_cons, h]
    · rw [if_neg h, foldl_filter_map p f rest acc]
      simp [List.filter_cons, h]

theorem sheet_foldl_eq (sheet : List (List CellVal)) :
    ∀ acc : List String,
      sheet.foldl
          (fun acc row =>
            row.foldl (fun acc c => if c.truthy then acc ++ [c.pyStr] else acc) acc)
          acc
        = acc ++ (sheet.flatten.filter CellVal.truthy).map CellVal.pyStr := by
  induction sheet with
  | nil => intro acc; simp
  | cons row rest ih =>
    intro acc
    rw [List.foldl_cons, foldl_filter_map CellVal.truthy CellVal.pyStr row acc, ih]
    simp

theorem xlsxCollect_eq (sheets : List (List (List CellVal))) :
    xlsxCollect sheets = (sheets.flatten.flatten.filter CellVal.truthy).map CellVal.pyStr := by
  rw [xlsxCollect]
  have : ∀ (ss : List (List (List CellVal))) (acc : List String),
      ss.foldl
          (fun acc sheet =>
            sheet.foldl
              (fun acc row =>
                row.foldl (fun acc c => if c.truthy then acc ++ [c.pyStr] else acc) acc)
              acc)
          acc
        = acc ++ (ss.flatten.flatten.filter CellVal.truthy).map CellVal.pyStr := by
    intro ss
    induction ss with
    | nil => intro acc; simp
    | cons sheet rest ih =>
      intro acc
      rw [List.foldl_cons, sheet_foldl_eq sheet acc, ih]
      simp
  rw [this]
  simp

/-- C6 (amended): `read_xlsx` visits cells sheet-by-sheet,
row-by-row, left-to-right, top-to-bottom, and keeps the string form of
exactly the cells whose value is truthy in Python (skipping empty
cells, empty strings, numeric zero and False), one value per line; the
spec's example sheet A1="foo", B1 empty, A2="bar" extracts to
"foo\nbar". -/
theorem read_xlsx_traversal :
    (∀ sheets, xlsxCollect sheets
        = (sheets.flatten.flatten.filter CellVal.truthy).map CellVal.pyStr) ∧
      read_xlsx_core (.ok [[[.vStr "foo", .vStr ""], [.vStr "bar"]]]) = "foo\nbar" :=
  ⟨xlsxCollect_eq, by decide⟩

/-- C6 counterexample: the claim says extraction skips exactly the
empty cells, but a cell holding the integer 0 is not empty and is
nevertheless skipped by `if cell.value:`; the code extracts `""` where
the claimed behaviour extracts `"0"`. -/
theorem read_xlsx_counterexample :
    read_xlsx_core (.ok [[[.vInt 0]]]) = "" ∧
      xlsxSpec [[[.vInt 0]]] = "0" ∧
      read_xlsx_core (.ok [[[.vInt 0]]]) ≠ xlsxSpec [[[.vInt 0]]] := by
  refine ⟨by decide, by decide, by decide⟩

/-- Stem check of CPython's `genericpath._splitext`: walking the
reversed path onward from the last dot, is there a non-dot character
before the next path separator (or the start of the path)? -/
def hasStem : List Char → Bool
  | [] => false
  | c :: rest =>
    if c == '\\' || c == '/' then false
    else if c == '.' then hasStem rest
    else true

/-- Scan of the reversed path for `os.path.splitext(p)[1]` (Windows
separators `\` and `/`): collect characters until the last dot of the
final path component; the extension is that dot plus the collected
characters, provided the remaining component has a non-dot character;
a separator before any dot means no extension. -/
def extScan : List Char → List Char → List Char
  | [], _ => []
  | c :: rest, acc =>
    if c == '\\' || c == '/' then []
    else if c == '.' then (if hasStem rest then '.' :: acc else [])
    else extScan rest (c :: acc)

/-- Translation of `os.path.splitext(p)[1]` to a list of characters. -/
def extOf (p : List Char) : List Char := extScan p.reverse []

/-- The expression `os.path.splitext(file_path)[1].lower()` (line 310). -/
def lowerExt (p : String) : String := ⟨(extOf p.data).map Char.toLower⟩

/-- Python `path.lower().endswith(suf)`. -/
def lowerEndsWith (p : String) (suf : String) : Bool :=
  suf.data.isSuffixOf (p.data.map Char.toLower)

/-- The constant `SUPPORTED_IMAGE_EXTENSIONS` (line 23). -/
def SUPPORTED_IMAGE_EXTENSIONS : List String := [".png", ".jpg", ".jpeg"]

/-- Python `str.strip()` on `String`. -/
def pyStrip (s : String) : String := ⟨stripL s.data⟩

/-- A JSON response body: the service answers either
`{"error": msg}` or `{"file_content": text}`. -/
inductive Body where
  | error (msg : String)
  | content (text : String)
deriving DecidableEq

/-- The external collaborators of one request, as oracles.  The PDF
library is opened once by the classifier (`pdfProbe`) and once by the
PDF text extractor (`pdfRead`), matching the two `fitz.open` calls in
the source.  `Except.error e` models the library call raising an
exception whose message is `e`.  `docxImages`/`pptxImages` model
`extract_images_from_docx`/`extract_images_from_pptx`, which catch
their own failures and return the list of temp files they created;
`docRun`/`xlsRun`/`pptRun` model the COM-automation bodies of the
legacy extractors (content text plus embedded-image OCR texts, or the
collected truthy cell strings for XLS). -/
structure Env where
  fsExists : String → Bool
  pdfProbe : String → Except String (List String)
  pdfRead : String → Except String (List String)
  convertPdf : String → Except String Nat
  tempName : Nat → String
  ocrTemp : String → Except String String
  ocrImage : String → Except String String
  txtRead : String → Except String String
  docxParas : String → Except String (List String)
  docxImages : String → List String
  pptxTexts : String → Except String (List String)
  pptxImages : String → List String
  xlsxData : String → Except String (List (List (List CellVal)))
  docRun : String → Except String (String × List String)
  xlsRun : String → Except String (List String)
  pptRun : String → Except String (List String × List String)

/-- The per-page loop of `extract_text_with_ocr` on an image-only PDF
(lines 49-54): per page, `tempfile.mktemp` a name, save the rendered
image (the file now exists), OCR it, append the text plus a newline,
`os.unlink` the file.  An OCR exception aborts the loop with the
page's temp file still on disk. -/
def pdfOcrLoop (env : Env) : Nat → Nat → String → List String →
    Except String String × List String
  | _, 0, acc, st => (.ok acc, st)
  | i, k + 1, acc, st =>
    match env.ocrTemp (env.tempName i) with
    | .error e => (.error e, env.tempName i :: st)
    | .ok t =>
      pdfOcrLoop env (i + 1) k (acc ++ t ++ "\n") ((env.tempName i :: st).erase (env.tempName i))

/-- Translation of `extract_text_with_ocr` (lines 44-58).  It has no try/except:
failures of `convert_from_path` or of the OCR engine propagate to the
caller.  Dispatch is on the lowered path suffix; a standalone image is
OCRed directly with no temp file; the result is `text.strip()`. -/
def extract_text_with_ocr (env : Env) (path : String) (st : List String) :
    Except String String × List String :=
  if lowerEndsWith path ".pdf" then
    match env.convertPdf path with
    | .error e => (.error e, st)
    | .ok n =>
      match pdfOcrLoop env 0 n "" st with
      | (.error e, st') => (.error e, st')
      | (.ok text, st') => (.ok (pyStrip text), st')
  else if SUPPORTED_IMAGE_EXTENSIONS.any (fun ext => lowerEndsWith path ext) then
    match env.ocrImage path with
    | .error e => (.error e, st)
    | .ok t => (.ok (pyStrip t), st)
  else (.ok (pyStrip ""), st)

/-- Temp-file creation by `extract_images_from_docx`/`_pptx`: each
extracted embedded image is saved to a fresh `tempfile.mktemp` path,
in order. -/
def materialize (names : List String) (st : List String) : List String :=
  names.foldl (fun s n => n :: s) st

/-- The embedded-image OCR loop shared by `read_docx` (lines 158-161)
and `read_pptx` (lines 215-218): `cv2.imread`, `pyt.image_to_string`,
append text plus a newline, `os.unlink`.  An OCR exception aborts the
loop, leaving the current and the remaining temp files on disk. -/
def tempOcrLoop (env : Env) : List String → String → List String →
    Except String String × List String
  | [], acc, st => (.ok acc, st)
  | p :: rest, acc, st =>
    match env.ocrTemp p with
    | .error e => (.error e, st)
    | .ok t => tempOcrLoop env rest (acc ++ t ++ "\n") (st.erase p)

/-- Translation of `read_docx` (lines 148-165): paragraph texts joined by newlines,
then the OCR text of every extracted embedded image; the try/except
turns any exception of the body into `"Error reading DOCX file: ..."`
(with whatever temp files were already created left as they are). -/
def read_docx (env : Env) (path : String) (st : List String) : String × List String :=
  match env.docxParas path with
  | .error e => ("Error reading DOCX file: " ++ e, st)
  | .ok paras =>
    match tempOcrLoop env (env.docxImages path) "" (materialize (env.docxImages path) st) with
    | (.error e, st') => ("Error reading DOCX file: " ++ e, st')
    | (.ok imgText, st') =>
      (pyStrip (String.intercalate "\n" paras ++ "\n" ++ imgText), st')

/-- Translation of `read_pptx` (lines 202-222): shape texts, then the OCR text of
every extracted embedded image, joined by newlines and stripped; the
try/except yields `"Error reading PPTX file: ..."`. -/
def read_pptx (env : Env) (path : String) (st : List String) : String × List String :=
  match env.pptxTexts path with
  | .error e => ("Error reading PPTX file: " ++ e, st)
  | .ok texts =>
    match tempOcrLoop env (env.pptxImages path) "" (materialize (env.pptxImages path) st) with
    | (.error e, st') => ("Error reading PPTX file: " ++ e, st')
    | (.ok imgText, st') =>
      (pyStrip (String.intercalate "\n" (texts ++ [imgText])), st')

/-- Translation of `read_text_file` (lines 168-174). -/
def read_text_file (env : Env) (path : String) : String :=
  match env.txtRead path with
  | .error e => "Error reading text file: " ++ e
  | .ok t => t

/-- Translation of `read_pdf_text` (lines 177-184): page texts joined by newlines
(no strip). -/
def read_pdf_text (env : Env) (path : String) : String :=
  match env.pdfRead path with
  | .error e => "Error reading PDF file: " ++ e
  | .ok pages => String.intercalate "\n" pages

/-- Translation of `read_xlsx` (lines 187-199) over the `load_workbook` oracle. -/
def read_xlsx (env : Env) (path : String) : String :=
  read_xlsx_core (env.xlsxData path)

/-- Translation of `read_doc` (lines 225-247): COM automation is external; the oracle
yields the document text and the embedded-image OCR texts, the
try/except yields `"Error reading DOC file: ..."`. -/
def read_doc (env : Env) (path : String) : String :=
  match env.docRun path with
  | .error e => "Error reading DOC file: " ++ e
  | .ok td => pyStrip (td.1 ++ "\n" ++ String.join (td.2.map fun t => t ++ "\n"))

/-- Translation of `read_xls` (lines 250-269): the oracle yields the collected truthy
cell strings, joined by newlines. -/
def read_xls (env : Env) (path : String) : String :=
  match env.xlsRun path with
  | .error e => "Error reading XLS file: " ++ e
  | .ok cells => String.intercalate "\n" cells

/-- Translation of `read_ppt` (lines 272-298). -/
def read_ppt (env : Env) (path : String) : String :=
  match env.pptRun path with
  | .error e => "Error reading PPT file: " ++ e
  | .ok tp =>
    pyStrip (String.intercalate "\n" (tp.1 ++ [String.join (tp.2.map fun t => t ++ "\n")]))

/-- Translation of `read_file` (lines 301-337), the `/read-file` handler: validate
the path, dispatch on the lowered extension, normalize with
`clean_text`, respond.  The surrounding try/except maps any exception
escaping the dispatch body to `(500, "Error processing file: ...")`.
The `.pdf` probe of the first dispatch condition and the later
`elif file_ext == '.pdf'` arm are merged into one branch here; this
preserves behaviour because the extension equality tests of the chain
are mutually exclusive.  The result pairs the HTTP response with the
temp files on disk afterwards. -/
def read_file (env : Env) (filePath : Option String) (st : List String) :
    (Nat × Body) × List String :=
  match filePath with
  | none => ((400, .error "File not found"), st)
  | some fp =>
    if fp == "" || !env.fsExists fp then ((400, .error "File not found"), st)
    else
      let ext := lowerExt fp
      if ext ∈ SUPPORTED_IMAGE_EXTENSIONS then
        match extract_text_with_ocr env fp st with
        | (.error e, st') => ((500, .error ("Error processing file: " ++ e)), st')
        | (.ok t, st') => ((200, .content (clean_text t)), st')
      else if ext = ".pdf" then
        match env.pdfProbe fp with
        | .error e => ((500, .error ("Error processing file: " ++ e)), st)
        | .ok pages =>
          if is_image_file pages then
            match extract_text_with_ocr env fp st with
            | (.error e, st') => ((500, .error ("Error processing file: " ++ e)), st')
            | (.ok t, st') => ((200, .content (clean_text t)), st')
          else ((200, .content (clean_text (read_pdf_text env fp))), st)
      else if ext = ".docx" then
        match read_docx env fp st with
        | (s, st') => ((200, .content (clean_text s)), st')
      else if ext = ".txt" then ((200, .content (clean_text (read_text_file env fp))), st)
      else if ext = ".xlsx" then ((200, .content (clean_text (read_xlsx env fp))), st)
      else if ext = ".pptx" then
        match read_pptx env fp st with
        | (s, st') => ((200, .content (clean_text s)), st')
      else if ext = ".doc" then ((200, .content (clean_text (read_doc env fp))), st)
      else if ext = ".xls" then ((200, .content (clean_text (read_xls env fp))), st)
      else if ext = ".ppt" then ((200, .content (clean_text (read_ppt env fp))), st)
      else ((400, .error "Unsupported file type"), st)

/-- C7: a request with no `filePath`, an empty `filePath`, or a path
that does not exist on disk answers 400 `{"error": "File not found"}`;
the response is the same for every oracle environment, so no
classifier or extractor is consulted. -/
theorem read_file_not_found (env : Env) (st : List String) :
    read_file env none st = ((400, .error "File not found"), st) ∧
    read_file env (some "") st = ((400, .error "File not found"), st) ∧
    (∀ fp, env.fsExists fp = false →
      read_file env (some fp) st = ((400, .error "File not found"), st)) := by
  refine ⟨rfl, rfl, fun fp h => ?_⟩
  simp [read_file, h]

/-- A concrete oracle environment with innocuous defaults, used by the
witness runs. -/
def baseEnv : Env where
  fsExists := fun _ => true
  pdfProbe := fun _ => .ok []
  pdfRead := fun _ => .ok []
  convertPdf := fun _ => .ok 0
  tempName := fun i => "tmp" ++ toString i ++ ".png"
  ocrTemp := fun _ => .ok "ocr"
  ocrImage := fun _ => .ok "ocr"
  txtRead := fun _ => .ok ""
  docxParas := fun _ => .ok []
  docxImages := fun _ => []
  pptxTexts := fun _ => .ok []
  pptxImages := fun _ => []
  xlsxData := fun _ => .ok []
  docRun := fun _ => .ok ("", [])
  xlsRun := fun _ => .ok []
  pptRun := fun _ => .ok ([], [])

/-- Variant of `baseEnv` with an empty filesystem. -/
def envNoFs : Env := { baseEnv with fsExists := fun _ => false }

/-- Witness for C7 at a concrete environment and path. -/
theorem read_file_not_found_witness :
    read_file envNoFs (some "ghost.txt") [] = ((400, .error "File not found"), []) :=
  (read_file_not_found envNoFs []).2.2 "ghost.txt" rfl

/-- C8: an existing file whose lowered extension is none of the eleven
supported ones answers 400 `{"error": "Unsupported file type"}`. -/
theorem read_file_unsupported (env : Env) (st : List String) (fp : String)
    (hne : fp ≠ "") (hex : env.fsExists fp = true)
    (h : lowerExt fp ∉ ([".png", ".jpg", ".jpeg", ".pdf", ".docx", ".txt",
        ".xlsx", ".pptx", ".doc", ".xls", ".ppt"] : List String)) :
    read_file env (some fp) st = ((400, .error "Unsupported file type"), st) := by
  simp only [List.mem_cons, List.not_mem_nil, or_false, not_or] at h
  obtain ⟨h1, h2, h3, h4, h5, h6, h7, h8, h9, h10, h11⟩ := h
  have hfp : (fp == "") = false := beq_eq_false_iff_ne.mpr hne
  simp [read_file, hfp, hex, SUPPORTED_IMAGE_EXTENSIONS, h1, h2, h3, h4, h5, h6, h7,
    h8, h9, h10, h11]

/-- Witness for C8: `"a.xyz"` on a filesystem where it exists. -/
theorem read_file_unsupported_witness :
    read_file baseEnv (some "a.xyz") [] = ((400, .error "Unsupported file type"), []) :=
  read_file_unsupported baseEnv [] "a.xyz" (by decide) rfl (by decide)

/-- C9: an existing `.txt` file is read whole by `read_text_file`,
normalized, and answered as 200 `{"file_content": ...}`; with content
`"hello\nworld"` the normalized payload is `"hello world"`. -/
theorem read_file_txt (env : Env) (st : List String) (fp : String) (t : String)
    (hne : fp ≠ "") (hex : env.fsExists fp = true)
    (hext : lowerExt fp = ".txt") (hread : env.txtRead fp = .ok t) :
    read_file env (some fp) st = ((200, .content (clean_text t)), st) ∧
      (t = "hello\nworld" →
        read_file env (some fp) st = ((200, .content "hello world"), st)) := by
  have hfp : (fp == "") = false := beq_eq_false_iff_ne.mpr hne
  have hmain : read_file env (some fp) st = ((200, .content (clean_text t)), st) := by
    simp [read_file, hfp, hex, hext, SUPPORTED_IMAGE_EXTENSIONS, read_text_file, hread]
  refine ⟨hmain, fun ht => ?_⟩
  rw [hmain, ht]
  have : clean_text "hello\nworld" = "hello world" := by decide
  rw [this]

/-- Witness for C9: a concrete `.txt` request. -/
theorem read_file_txt_witness :
    read_file { baseEnv with txtRead := fun _ => .ok "hello\nworld" } (some "a.txt") []
      = ((200, .content "hello world"), []) :=
  (read_file_txt _ [] "a.txt" "hello\nworld" (by decide) rfl (by decide) rfl).2 rfl

theorem extScan_suffix : ∀ (r acc : List Char),
    extScan r acc = [] ∨ ∃ t, r.reverse ++ acc = t ++ extScan r acc
  | [], _ => Or.inl rfl
  | c :: rest, acc => by
    by_cases hsep : (c == '\\' || c == '/') = true
    · left
      rw [extScan, if_pos hsep]
    · by_cases hdot : (c == '.') = true
      · by_cases hstem : hasStem rest = true
        · right
          rw [extScan, if_neg hsep, if_pos hdot, if_pos hstem]
          refine ⟨rest.reverse, ?_⟩
          rw [List.reverse_cons, List.append_assoc, eq_of_beq hdot]
          rfl
        · left
          rw [extScan, if_neg hsep, if_pos hdot, if_neg hstem]
      · rw [extScan, if_neg hsep, if_neg hdot]
        rcases extScan_suffix rest (c :: acc) with h | ⟨t, ht⟩
        · left
          exact h
        · right
          refine ⟨t, ?_⟩
          rw [List.reverse_cons, List.append_assoc]
          exact ht

theorem extOf_suffix (p : List Char) : extOf p = [] ∨ ∃ t, p = t ++ extOf p := by
  rcases extScan_suffix p.reverse [] with h | ⟨t, ht⟩
  · left
    exact h
  · right
    refine ⟨t, ?_⟩
    rw [List.reverse_reverse, List.append_nil] at ht
    exact ht

theorem lowerEndsWith_of_lowerExt (fp ext : String)
    (h : lowerExt fp = ext) (hne : ext ≠ "") : lowerEndsWith fp ext = true := by
  rcases extOf_suffix fp.data with h0 | ⟨t, ht⟩
  · exact absurd (by rw [← h, lowerExt, h0]; rfl) hne
  · rw [lowerEndsWith, List.isSuffixOf_iff_suffix]
    have hdata : (extOf fp.data).map Char.toLower = ext.data := by
      rw [← h]
      rfl
    refine ⟨t.map Char.toLower, ?_⟩
    rw [← hdata, ← List.map_append, ← ht]

theorem lowerEndsWith_pdf_false_of_image (fp : String)
    (h : lowerExt fp ∈ SUPPORTED_IMAGE_EXTENSIONS) : lowerEndsWith fp ".pdf" = false := by
  apply Bool.eq_false_iff.mpr
  intro hpdf
  have hpdfs : ".pdf".data <:+ fp.data.map Char.toLower :=
    List.isSuffixOf_iff_suffix.mp hpdf
  simp only [SUPPORTED_IMAGE_EXTENSIONS, List.mem_cons, List.not_mem_nil, or_false] at h
  rcases h with h | h | h
  · have himgs := List.isSuffixOf_iff_suffix.mp (lowerEndsWith_of_lowerExt fp ".png" h (by decide))
    exact absurd (List.suffix_of_suffix_length_le hpdfs himgs (by decide)) (by decide)
  · have himgs := List.isSuffixOf_iff_suffix.mp (lowerEndsWith_of_lowerExt fp ".jpg" h (by decide))
    exact absurd (List.suffix_of_suffix_length_le hpdfs himgs (by decide)) (by decide)
  · have himgs := List.isSuffixOf_iff_suffix.mp (lowerEndsWith_of_lowerExt fp ".jpeg" h (by decide))
    exact absurd (List.suffix_of_suffix_length_le hpdfs himgs (by decide)) (by decide)

theorem any_endsWith_of_image (fp : String)
    (h : lowerExt fp ∈ SUPPORTED_IMAGE_EXTENSIONS) :
    SUPPORTED_IMAGE_EXTENSIONS.any (fun ext => lowerEndsWith fp ext) = true := by
  simp only [SUPPORTED_IMAGE_EXTENSIONS, List.mem_cons, List.not_mem_nil, or_false] at h
  rcases h with h | h | h <;>
    simp [SUPPORTED_IMAGE_EXTENSIONS, lowerEndsWith_of_lowerExt fp _ h (by decide)]

/-- Variant of `baseEnv` with an OCR engine that raises on standalone images. -/
def envOcrBoom : Env := { baseEnv with ocrImage := fun _ => .error "boom" }

/-- C1 counterexample: a failure inside the OCR-based extractor
(`extract_text_with_ocr` has no try/except) is not turned into an
error string; the request for an existing `"x.png"` whose OCR raises
`"boom"` answers HTTP 500, not HTTP 200 with error-string content. -/
theorem read_file_ocr_counterexample :
    read_file envOcrBoom (some "x.png") []
        = ((500, .error "Error processing file: boom"), []) ∧
      (read_file envOcrBoom (some "x.png") []).1.1 ≠ 200 := by
  refine ⟨by decide, by decide⟩

/-- C1 (amended): every extractor with an internal try/except (DOCX,
plain text, text PDF, XLSX, PPTX, DOC, XLS, PPT) catches its own
failures and the handler returns the format-name-prefixed error
string, normalized, as HTTP 200 content; the OCR-based extractor for
images and image-only PDFs has no internal handler, so its failures
reach the dispatch layer and surface as HTTP 500. -/
theorem extractor_error_policy (env : Env) (st : List String) (fp : String) (e : String)
    (hne : fp ≠ "") (hex : env.fsExists fp = true) :
    (lowerExt fp = ".docx" → env.docxParas fp = .error e →
      read_file env (some fp) st
        = ((200, .content (clean_text ("Error reading DOCX file: " ++ e))), st)) ∧
    (lowerExt fp = ".txt" → env.txtRead fp = .error e →
      read_file env (some fp) st
        = ((200, .content (clean_text ("Error reading text file: " ++ e))), st)) ∧
    (lowerExt fp = ".pdf" → ∀ pages, env.pdfProbe fp = .ok pages →
      is_image_file pages = false → env.pdfRead fp = .error e →
      read_file env (some fp) st
        = ((200, .content (clean_text ("Error reading PDF file: " ++ e))), st)) ∧
    (lowerExt fp = ".xlsx" → env.xlsxData fp = .error e →
      read_file env (some fp) st
        = ((200, .content (clean_text ("Error reading XLSX file: " ++ e))), st)) ∧
    (lowerExt fp = ".pptx" → env.pptxTexts fp = .error e →
      read_file env (some fp) st
        = ((200, .content (clean_text ("Error reading PPTX file: " ++ e))), st)) ∧
    (lowerExt fp = ".doc" → env.docRun fp = .error e →
      read_file env (some fp) st
        = ((200, .content (clean_text ("Error reading DOC file: " ++ e))), st)) ∧
    (lowerExt fp = ".xls" → env.xlsRun fp = .error e →
      read_file env (some fp) st
        = ((200, .content (clean_text ("Error reading XLS file: " ++ e))), st)) ∧
    (lowerExt fp = ".ppt" → env.pptRun fp = .error e →
      read_file env (some fp) st
        = ((200, .content (clean_text ("Error reading PPT file: " ++ e))), st)) ∧
    (lowerExt fp ∈ SUPPORTED_IMAGE_EXTENSIONS → env.ocrImage fp = .error e →
      read_file env (some fp) st
        = ((500, .error ("Error processing file: " ++ e)), st)) ∧
    (lowerExt fp = ".pdf" → ∀ pages, env.pdfProbe fp = .ok pages →
      is_image_file pages = true → env.convertPdf fp = .error e →
      read_file env (some fp) st
        = ((500, .error ("Error processing file: " ++ e)), st)) := by
  have hfp : (fp == "") = false := beq_eq_false_iff_ne.mpr hne
  refine ⟨?_, ?_, ?_, ?_, ?_, ?_, ?_, ?_, ?_, ?_⟩
  · intro hext hfail
    simp [read_file, hfp, hex, hext, SUPPORTED_IMAGE_EXTENSIONS, read_docx, hfail]
  · intro hext hfail
    simp [read_file, hfp, hex, hext, SUPPORTED_IMAGE_EXTENSIONS, read_text_file, hfail]
  · intro hext pages hprobe himg hfail
    simp [read_file, hfp, hex, hext, SUPPORTED_IMAGE_EXTENSIONS, hprobe, himg,
      read_pdf_text, hfail]
  · intro hext hfail
    simp [read_file, hfp, hex, hext, SUPPORTED_IMAGE_EXTENSIONS, read_xlsx,
      read_xlsx_core, hfail]
  · intro hext hfail
    simp [read_file, hfp, hex, hext, SUPPORTED_IMAGE_EXTENSIONS, read_pptx, hfail]
  · intro hext hfail
    simp [read_file, hfp, hex, hext, SUPPORTED_IMAGE_EXTENSIONS, read_doc, hfail]
  · intro hext hfail
    simp [read_file, hfp, hex, hext, SUPPORTED_IMAGE_EXTENSIONS, read_xls, hfail]
  · intro hext hfail
    simp [read_file, hfp, hex, hext, SUPPORTED_IMAGE_EXTENSIONS, read_ppt, hfail]
  · intro himg hfail
    have hp : lowerEndsWith fp ".pdf" = false := lowerEndsWith_pdf_false_of_image fp himg
    have ha : SUPPORTED_IMAGE_EXTENSIONS.any (fun ext => lowerEndsWith fp ext) = true :=
      any_endsWith_of_image fp himg
    simp [read_file, hfp, hex, himg, extract_text_with_ocr, hp, ha, hfail]
  · intro hext pages hprobe himg hfail
    have hp : lowerEndsWith fp ".pdf" = true :=
      lowerEndsWith_of_lowerExt fp ".pdf" hext (by decide)
    simp [read_file, hfp, hex, hext, SUPPORTED_IMAGE_EXTENSIONS, hprobe, himg,
      extract_text_with_ocr, hp, hfail]

/-- Witness for C1 (amended) at concrete runs: a DOCX parse failure
answers 200 with the normalized error string, and an image OCR failure
answers 500. -/
theorem extractor_error_policy_witness :
    read_file { baseEnv with docxParas := fun _ => .error "bad zip" } (some "a.docx") []
        = ((200, .content (clean_text ("Error reading DOCX file: " ++ "bad zip"))), []) ∧
      read_file envOcrBoom (some "x.png") []
        = ((500, .error ("Error processing file: " ++ "boom")), []) :=
  ⟨(extractor_error_policy { baseEnv with docxParas := fun _ => .error "bad zip" }
      [] "a.docx" "bad zip" (by decide) rfl).1 (by decide) rfl,
    (extractor_error_policy envOcrBoom [] "x.png" "boom"
      (by decide) rfl).2.2.2.2.2.2.2.2.1 (by decide) rfl⟩

/-- Variant of `baseEnv` for an existing image-only PDF whose single rendered
page's OCR raises. -/
def envPdfOcrBoom : Env :=
  { baseEnv with
    pdfProbe := fun _ => .ok [""]
    convertPdf := fun _ => .ok 1
    ocrTemp := fun _ => .error "ocr fail" }

/-- C2 counterexample: when the OCR call on a rendered page raises,
`os.unlink` is skipped (no try/finally), so the page's temp file is
still on disk after the request completes. -/
theorem temp_cleanup_counterexample :
    read_file envPdfOcrBoom (some "d.pdf") []
        = ((500, .error "Error processing file: ocr fail"), ["tmp0.png"]) ∧
      (read_file envPdfOcrBoom (some "d.pdf") []).2 ≠ ([] : List String) := by
  refine ⟨by decide, by decide⟩

theorem materialize_eq : ∀ (names st : List String),
    materialize names st = names.reverse ++ st
  | [], st => rfl
  | n :: rest, st => by
    have hstep : materialize (n :: rest) st = materialize rest (n :: st) := rfl
    rw [hstep, materialize_eq rest (n :: st), List.reverse_cons, List.append_assoc]
    rfl

theorem pdfOcrLoop_state (env : Env)
    (hocr : ∀ name, ∃ t, env.ocrTemp name = .ok t) :
    ∀ (k i : Nat) (acc : String) (st : List String), (pdfOcrLoop env i k acc st).2 = st
  | 0, i, acc, st => rfl
  | k + 1, i, acc, st => by
    obtain ⟨t, ht⟩ := hocr (env.tempName i)
    rw [pdfOcrLoop, ht, List.erase_cons_head]
    exact pdfOcrLoop_state env hocr k (i + 1) (acc ++ t ++ "\n") st

theorem tempOcrLoop_clean (env : Env)
    (hocr : ∀ name, ∃ t, env.ocrTemp name = .ok t) :
    ∀ (names : List String) (acc : String) (q st : List String), q.Perm names →
      (tempOcrLoop env names acc (q ++ st)).2 = st
  | [], acc, q, st => by
    intro hperm
    have : q = [] := List.Perm.eq_nil hperm
    rw [this, tempOcrLoop]
    rfl
  | n :: rest, acc, q, st => by
    intro hperm
    obtain ⟨t, ht⟩ := hocr n
    have hmem : n ∈ q := hperm.mem_iff.mpr (List.mem_cons_self n rest)
    rw [tempOcrLoop, ht, List.erase_append_left st hmem]
    have hperm' : (q.erase n).Perm rest := by
      have := hperm.erase n
      rw [List.erase_cons_head] at this
      exact this
    exact tempOcrLoop_clean env hocr rest (acc ++ t ++ "\n") (q.erase n) st hperm'

theorem read_docx_state (env : Env) (fp : String) (st : List String)
    (hocr : ∀ name, ∃ t, env.ocrTemp name = .ok t) : (read_docx env fp st).2 = st := by
  simp only [read_docx]
  cases hp : env.docxParas fp with
  | error e => rfl
  | ok paras =>
    have hclean : (tempOcrLoop env (env.docxImages fp) ""
        (materialize (env.docxImages fp) st)).2 = st := by
      rw [materialize_eq]
      exact tempOcrLoop_clean env hocr (env.docxImages fp) "" _ st (List.reverse_perm _)
    cases hres : tempOcrLoop env (env.docxImages fp) "" (materialize (env.docxImages fp) st) with
    | mk r st' =>
      rw [hres] at hclean
      cases r <;> exact hclean

theorem read_pptx_state (env : Env) (fp : String) (st : List String)
    (hocr : ∀ name, ∃ t, env.ocrTemp name = .ok t) : (read_pptx env fp st).2 = st := by
  simp only [read_pptx]
  cases hp : env.pptxTexts fp with
  | error e => rfl
  | ok texts =>
    have hclean : (tempOcrLoop env (env.pptxImages fp) ""
        (materialize (env.pptxImages fp) st)).2 = st := by
      rw [materialize_eq]
      exact tempOcrLoop_clean env hocr (env.pptxImages fp) "" _ st (List.reverse_perm _)
    cases hres : tempOcrLoop env (env.pptxImages fp) "" (materialize (env.pptxImages fp) st) with
    | mk r st' =>
      rw [hres] at hclean
      cases r <;> exact hclean

theorem extract_text_with_ocr_state (env : Env) (fp : String) (st : List String)
    (hocr : ∀ name, ∃ t, env.ocrTemp name = .ok t) :
    (extract_text_with_ocr env fp st).2 = st := by
  simp only [extract_text_with_ocr]
  by_cases hp : lowerEndsWith fp ".pdf" = true
  · rw [if_pos hp]
    cases hc : env.convertPdf fp with
    | error e => rfl
    | ok n =>
      have hloop := pdfOcrLoop_state env hocr n 0 "" st
      dsimp only
      cases hres : pdfOcrLoop env 0 n "" st with
      | mk r st' =>
        rw [hres] at hloop
        cases r <;> exact hloop
  · rw [if_neg hp]
    by_cases ha : SUPPORTED_IMAGE_EXTENSIONS.any (fun ext => lowerEndsWith fp ext) = true
    · rw [if_pos ha]
      cases env.ocrImage fp <;> rfl
    · rw [if_neg ha]

/-- C2 (amended): every temporary file is deleted immediately after
its *successful* OCR call, so when all OCR calls of a request succeed
(image, image-only PDF, DOCX and PPTX requests), no temp file created
for OCR remains: the temp-file state after the request equals the one
before.  When an OCR call raises, the deletion is skipped and the
current (and any remaining) temp files stay on disk, as the
counterexample shows. -/
theorem temp_cleanup_on_success (env : Env) (st : List String) (fp : String)
    (hocr : ∀ name, ∃ t, env.ocrTemp name = .ok t)
    (hext : lowerExt fp ∈ ([".png", ".jpg", ".jpeg", ".pdf", ".docx", ".pptx"] : List String)) :
    (read_file env (some fp) st).2 = st := by
  simp only [read_file]
  by_cases hval : (fp == "" || !env.fsExists fp) = true
  · rw [if_pos hval]
  · rw [if_neg hval]
    have hocrstate := extract_text_with_ocr_state env fp st hocr
    simp only [List.mem_cons, List.not_mem_nil, or_false] at hext
    have himgcase : lowerExt fp ∈ SUPPORTED_IMAGE_EXTENSIONS →
        (if lowerExt fp ∈ SUPPORTED_IMAGE_EXTENSIONS then
            match extract_text_with_ocr env fp st with
            | (.error e, st') => ((500, Body.error ("Error processing file: " ++ e)), st')
            | (.ok t, st') => ((200, Body.content (clean_text t)), st')
          else if lowerExt fp = ".pdf" then
            match env.pdfProbe fp with
            | .error e => ((500, Body.error ("Error processing file: " ++ e)), st)
            | .ok pages =>
              if is_image_file pages then
                match extract_text_with_ocr env fp st with
                | (.error e, st') => ((500, Body.error ("Error processing file: " ++ e)), st')
                | (.ok t, st') => ((200, Body.content (clean_text t)), st')
              else ((200, Body.content (clean_text (read_pdf_text env fp))), st)
          else if lowerExt fp = ".docx" then
            match read_docx env fp st with
            | (s, st') => ((200, Body.content (clean_text s)), st')
          else if lowerExt fp = ".txt" then
            ((200, Body.content (clean_text (read_text_file env fp))), st)
          else if lowerExt fp = ".xlsx" then
            ((200, Body.content (clean_text (read_xlsx env fp))), st)
          else if lowerExt fp = ".pptx" then
            match read_pptx env fp st with
            | (s, st') => ((200, Body.content (clean_text s)), st')
          else if lowerExt fp = ".doc" then
            ((200, Body.content (clean_text (read_doc env fp))), st)
          else if lowerExt fp = ".xls" then
            ((200, Body.content (clean_text (read_xls env fp))), st)
          else if lowerExt fp = ".ppt" then
            ((200, Body.content (clean_text (read_ppt env fp))), st)
          else ((400, Body.error "Unsupported file type"), st)).2 = st := by
      intro himg
      rw [if_pos himg]
      cases hres : extract_text_with_ocr env fp st with
      | mk r st' =>
        rw [hres] at hocrstate
        cases r <;> exact hocrstate
    rcases hext with h | h | h | h | h | h
    · exact himgcase (by simp [SUPPORTED_IMAGE_EXTENSIONS, h])
    · exact himgcase (by simp [SUPPORTED_IMAGE_EXTENSIONS, h])
    · exact himgcase (by simp [SUPPORTED_IMAGE_EXTENSIONS, h])
    · have hni : lowerExt fp ∉ SUPPORTED_IMAGE_EXTENSIONS := by
        simp [SUPPORTED_IMAGE_EXTENSIONS, h]
      rw [if_neg hni, if_pos h]
      cases hprobe : env.pdfProbe fp with
      | error e => rfl
      | ok pages =>
        dsimp only
        by_cases himg : is_image_file pages = true
        · rw [if_pos himg]
          cases hres : extract_text_with_ocr env fp st with
          | mk r st' =>
            rw [hres] at hocrstate
            cases r <;> exact hocrstate
        · rw [if_neg himg]
    · have hni : lowerExt fp ∉ SUPPORTED_IMAGE_EXTENSIONS := by
        simp [SUPPORTED_IMAGE_EXTENSIONS, h]
      have hnpdf : ¬(lowerExt fp = ".pdf") := by simp [h]
      rw [if_neg hni, if_neg hnpdf, if_pos h]
      have hdocx := read_docx_state env fp st hocr
      cases hres : read_docx env fp st with
      | mk s st' =>
        rw [hres] at hdocx
        exact hdocx
    · have hni : lowerExt fp ∉ SUPPORTED_IMAGE_EXTENSIONS := by
        simp [SUPPORTED_IMAGE_EXTENSIONS, h]
      have hnpdf : ¬(lowerExt fp = ".pdf") := by simp [h]
      have hndocx : ¬(lowerExt fp = ".docx") := by simp [h]
      have hntxt : ¬(lowerExt fp = ".txt") := by simp [h]
      have hnxlsx : ¬(lowerExt fp = ".xlsx") := by simp [h]
      rw [if_neg hni, if_neg hnpdf, if_neg hndocx, if_neg hntxt, if_neg hnxlsx, if_pos h]
      have hpptx := read_pptx_state env fp st hocr
      cases hres : read_pptx env fp st with
      | mk s st' =>
        rw [hres] at hpptx
        exact hpptx

/-- Variant of `baseEnv` for a DOCX with one paragraph and two embedded images,
all OCR calls succeeding. -/
def envDocxImages : Env :=
  { baseEnv with
    docxImages := fun _ => ["i0.png", "i1.png"]
    docxParas := fun _ => .ok ["p"] }

/-- Witness for C2 (amended): a DOCX request with two embedded images
and succeeding OCR leaves no temp file. -/
theorem temp_cleanup_on_success_witness :
    (read_file envDocxImages (some "a.docx") []).2 = ([] : List String) :=
  temp_cleanup_on_success envDocxImages [] "a.docx" (fun _ => ⟨"ocr", rfl⟩) (by decide)
